import Mathlib

/-!
# Verification of the sdm-pack-k8 bidirectional Kubernetes sync engine

Shallow embedding, in Lean 4, of the core algorithms of the `atomist/sdm-pack-k8`
repository: the reverse-sync writer (`syncResources`, `resourceUpserted`,
`resourceDeleted`, `matchSpec`, `specFileBasename` from `lib/sync/application.ts`),
the change extractor (`parseNameStatusDiff` from `lib/sync/diff.ts`), the sync-repo
push test (`isSyncRepoCommit` from `lib/sync/goals.ts`), the secret cipher
(`encrypt`/`decrypt`/`deriveKey`), the patched API client header swap
(`patchWithHeaders` from `lib/kubernetes/clients.ts`) and the composite application
delete/upsert orchestration (`deleteApplication`/`upsertApplication` from
`lib/kubernetes/application.ts`).

TypeScript values are modelled as follows: JS strings are Lean `String`
(the code only manipulates ASCII in the relevant paths, so JS UTF-16 length
and case conversions coincide with Lean's); `undefined`-able fields are
`Option`; promise rejection / `throw` is `Except.error`; `Buffer`s are
`List Nat` byte lists.  External collaborators (Node `crypto`, the git
project handle, the Kubernetes client API) are modelled at their interface
boundary as explicit parameters.
-/

namespace SdmPackK8

/-! ## String helpers -/

/-- Model of JS `String.prototype.includes`: `needle` occurs contiguously in
`hay`.  Implemented over the character data, executably. -/
def strIncludes (hay needle : String) : Bool :=
  hay.data.tails.any (fun t => needle.data.isPrefixOf t)

/-- `strIncludes` is the existence of a `pre ++ needle ++ post` decomposition. -/
theorem strIncludes_iff (hay needle : String) :
    strIncludes hay needle = true ↔ ∃ pre post : String, hay = pre ++ needle ++ post := by
  unfold strIncludes
  rw [List.any_eq_true]
  constructor
  · rintro ⟨t, ht, hp⟩
    rw [List.mem_tails] at ht
    rw [List.isPrefixOf_iff_prefix] at hp
    obtain ⟨post, hpost⟩ := hp
    obtain ⟨pre, hpre⟩ := ht
    refine ⟨⟨pre⟩, ⟨post⟩, ?_⟩
    apply String.ext
    simp only [String.data_append]
    rw [← hpre, ← hpost, List.append_assoc]
  · rintro ⟨pre, post, h⟩
    refine ⟨needle.data ++ post.data, ?_, ?_⟩
    · rw [List.mem_tails]
      exact ⟨pre.data, by rw [← List.append_assoc, ← String.data_append, ← String.data_append, ← h]⟩
    · rw [List.isPrefixOf_iff_prefix]
      exact ⟨post.data, rfl⟩

/-- JS `toLowerCase` (ASCII, which is all the code feeds it), computably over
the character data. -/
def strToLower (s : String) : String :=
  String.mk (s.data.map Char.toLower)

/-- JS `endsWith`, computably over the character data. -/
def strEndsWith (s suffix : String) : Bool :=
  suffix.data.isSuffixOf s.data

/-- Whether a character occurs in a string, computably over the data. -/
def strHasChar (s : String) (c : Char) : Bool :=
  s.data.contains c

/-- JS `trim` (the inputs only ever carry ASCII whitespace at the ends),
computably over the character data. -/
def strTrim (s : String) : String :=
  String.mk (((s.data.dropWhile Char.isWhitespace).reverse.dropWhile
    Char.isWhitespace).reverse)

/-- JS `split(sep)` for a one-character separator, computably. -/
def splitOnChar (sep : Char) : List Char → List (List Char)
  | [] => [[]]
  | c :: rest =>
    let r := splitOnChar sep rest
    if c = sep then [] :: r
    else (c :: r.headD []) :: r.tail

/-- Model of JS `Array.prototype.join("; ")`. -/
def joinSemi : List String → String
  | [] => ""
  | [m] => m
  | m :: rest => m ++ "; " ++ joinSemi rest

/-- Every element of the joined list occurs contiguously in the join. -/
theorem joinSemi_contains {m : String} : ∀ {l : List String}, m ∈ l →
    ∃ pre post : String, joinSemi l = pre ++ m ++ post := by
  intro l
  induction l with
  | nil => intro h; cases h
  | cons x rest ih =>
    intro h
    rcases List.mem_cons.mp h with h1 | h2
    · subst h1
      cases rest with
      | nil => exact ⟨"", "", by simp [joinSemi]⟩
      | cons y ys =>
        exact ⟨"", "; " ++ joinSemi (y :: ys), by simp [joinSemi, String.append_assoc]⟩
    · cases rest with
      | nil => cases h2
      | cons y ys =>
        obtain ⟨pre, post, hp⟩ := ih h2
        exact ⟨x ++ "; " ++ pre, post, by simp [joinSemi, hp, String.append_assoc]⟩

/-! ## Data model: Kubernetes objects and parsed spec files

`k8s.KubernetesObject` resources handed to the sync writer always carry
`apiVersion`, `kind` and `metadata`; `metadata.name` and `metadata.namespace`
may be `undefined` (e.g. cluster-scoped resources have no namespace).  Spec
files parsed from the sync repo are `DeepPartial` objects: every identity
field may be absent.  `namespace` is a Lean keyword, so the field is `ns`. -/

/-- `metadata` of a Kubernetes object: the identity-relevant fields. -/
structure SpecMeta where
  name : Option String
  ns : Option String
  deriving DecidableEq, Repr

/-- A `DeepPartial<k8s.KubernetesObject>` parsed from a sync-repo spec file. -/
structure SpecFields where
  apiVersion : Option String
  kind : Option String
  metadata : SpecMeta
  deriving DecidableEq, Repr

/-- A `k8s.KubernetesObject` handed to the reverse-sync writer.  `kind` and
`apiVersion` are present on these (they come from the typed client);
`data` holds a Secret's payload entries (empty for non-secrets), `typ` the
Secret `type` field. -/
structure K8sObject where
  apiVersion : String
  kind : String
  metadata : SpecMeta
  typ : Option String
  data : List (String × String)
  deriving DecidableEq, Repr

/-- `ProjectFileSpec` of `lib/sync/application.ts`: a spec file (by path) and
its parsed contents. -/
structure ProjectFileSpec where
  path : String
  spec : SpecFields
  deriving DecidableEq, Repr

/-- `matchSpec` of `lib/sync/application.ts`: first file spec whose
`apiVersion`, `kind`, `metadata.name` and `metadata.namespace` all compare
`===` to the resource's (with `undefined === undefined` being true, which
`Option` equality models exactly). -/
def matchSpec (spec : K8sObject) (fileSpecs : List ProjectFileSpec) : Option ProjectFileSpec :=
  fileSpecs.find? fun fs =>
    fs.spec.apiVersion == some spec.apiVersion &&
    fs.spec.kind == some spec.kind &&
    fs.spec.metadata.name == spec.metadata.name &&
    fs.spec.metadata.ns == spec.metadata.ns

/-! ## Deterministic naming (`specFileBasename` of `lib/sync/application.ts`) -/

/-- The global regex replace `kind.replace(/([a-z])([A-Z])/g, "$1-$2")`:
insert a hyphen at each ASCII lowercase-to-uppercase boundary. -/
def kebabChars : List Char → List Char
  | a :: b :: rest =>
    if a.isLower && b.isUpper then a :: '-' :: kebabChars (b :: rest)
    else a :: kebabChars (b :: rest)
  | l => l

/-- JS template interpolation of a possibly-`undefined` string. -/
def jsInterp : Option String → String
  | some s => s
  | none => "undefined"

/-- `specFileBasename` of `lib/sync/application.ts` (`src/unnamed/part_003`):
`"NAMESPACE-NAME-KIND"` with the `"NAMESPACE-"` part present only when the
namespace is truthy (JS: absent or empty string is falsy), the kind turned
from PascalCase into kebab-case, and the whole name lowercased. -/
def specFileBasename (resource : K8sObject) : String :=
  let ns := match resource.metadata.ns with
    | some s => if s == "" then "" else s ++ "-"
    | none => ""
  strToLower (ns ++ jsInterp resource.metadata.name ++ "-"
    ++ String.mk (kebabChars resource.kind.data))

/-! ## Reverse Sync Writer (`syncResources` of `lib/sync/application.ts`)

The `GitProject` working copy is modelled as an explicit state: the spec
files (path, content), the list of commit messages made, and a push counter.
External effects of the git layer are inputs: `isClean` is the answer
`syncProject.isClean()` gives after the file operations, and `commitResult`
/ `pushResult` are the outcomes of `syncProject.commit`/`push`.
Serialization (`json-stringify-safe` / `js-yaml`) and spec-file parsing are
modelled as opaque functions, and the stream of `guid()` fragments used for
collision-avoiding file names is a list parameter. -/

/-- The mutable state of the cloned sync-repo working copy. -/
structure SimProject where
  files : List (String × String)
  commits : List String
  pushes : Nat
  deriving Repr

/-- External collaborators of `syncResources`, at their interface boundary. -/
structure SyncEnv where
  /-- `stringifySpec`: formatted JSON serialization of a resource. -/
  jsonDump : K8sObject → String
  /-- `yaml.safeDump`: YAML serialization of a resource. -/
  yamlDump : K8sObject → String
  /-- `parseKubernetesSpecFile` on a file's content; `none` is a parse failure
  (the file is logged and skipped). -/
  parse : String → Option SpecFields
  /-- First segments of successive `guid()` draws. -/
  guids : List String
  /-- Result of `syncProject.isClean()` after the file operations. -/
  isClean : Bool
  /-- Outcome of `syncProject.commit`. -/
  commitResult : Except String Unit
  /-- Outcome of `syncProject.push`. -/
  pushResult : Except String Unit
  /-- `commitTag()`: the generated-commit marker. -/
  commitTag : String

/-- The application slug `appName(app)` is `"NS/NAME"`. -/
structure AppId where
  ns : String
  name : String

def appName (app : AppId) : String := app.ns ++ "/" ++ app.name

/-- `action` argument of `syncResources`. -/
inductive SyncAction
  | upsert
  | delete
  deriving DecidableEq, Repr

/-- `/\.ya?ml$/.test(path)` of `resourceUpserted`. -/
def isYamlPath (path : String) : Bool :=
  strEndsWith path ".yaml" || strEndsWith path ".yml"

/-- The spec glob `*.@(json|yaml|yml)`: root-level files with a spec extension. -/
def isSpecPath (path : String) : Bool :=
  !(strHasChar path '/') &&
    (strEndsWith path ".json" || strEndsWith path ".yaml" || strEndsWith path ".yml")

/-- `file.setContent`: replace the content at `path`, or create the file if the
handle's path does not currently exist. -/
def setFile (files : List (String × String)) (path content : String) :
    List (String × String) :=
  if files.any (fun f => f.1 == path) then
    files.map (fun f => if f.1 == path then (path, content) else f)
  else files ++ [(path, content)]

/-- The `while (await p.getFile(specPath))` collision loop of
`resourceUpserted`: try `specRoot + ext`, then `specRoot + "-" + guid + ext`
for successive `guid()` draws, until a name names no existing file.  The JS
loop draws fresh guids forever; with the guid stream as a finite list the
(unreachable for fresh guids) exhausted case is `none`. -/
def firstFreePath (hasFile : String → Bool) (specRoot ext : String)
    (guids : List String) : Option String :=
  if !hasFile (specRoot ++ ext) then some (specRoot ++ ext)
  else guids.findSome? fun g =>
    let path := specRoot ++ "-" ++ g ++ ext
    if hasFile path then none else some path

/-- `resourceUpserted` of `lib/sync/application.ts` (`src/unnamed/part_003`):
with a matching file spec, overwrite that file with the serialized resource
(YAML for `.yaml`/`.yml` files, JSON otherwise); without one, create a fresh
`.json` file named by `specFileBasename` (disambiguated on collision).  If
the guid stream is exhausted (the JS loop would not terminate) the state is
returned unchanged; no theorem depends on that branch. -/
def resourceUpserted (env : SyncEnv) (resource : K8sObject) (p : SimProject)
    (fs : Option ProjectFileSpec) : SimProject :=
  match fs with
  | some f =>
    let specString := if isYamlPath f.path then env.yamlDump resource
                      else env.jsonDump resource
    { p with files := setFile p.files f.path specString }
  | none =>
    let specRoot := specFileBasename resource
    let specExt := ".json"
    match firstFreePath (fun path => p.files.any (fun f => f.1 == path))
        specRoot specExt env.guids with
    | some path => { p with files := p.files ++ [(path, env.jsonDump resource)] }
    | none => p

/-- `resourceDeleted` of `lib/sync/application.ts`: delete the matching file,
or do nothing when there is none. -/
def resourceDeleted (p : SimProject) (fs : Option ProjectFileSpec) : SimProject :=
  match fs with
  | some f => { p with files := p.files.filter (fun q => q.1 != f.path) }
  | none => p

/-- The spec index built by `doWithFiles(syncProject, k8sSpecGlob, ...)`:
parse every root-level spec file, skipping files that fail to parse. -/
def loadSpecs (env : SyncEnv) (files : List (String × String)) :
    List ProjectFileSpec :=
  files.filterMap fun f =>
    if isSpecPath f.1 then (env.parse f.2).map (fun s => ⟨f.1, s⟩) else none

/-- The commit message of `syncResources`. -/
def syncCommitMessage (verb : String) (app : AppId) (tag : String) : String :=
  verb ++ " specs for " ++ appName app ++ "\n\n[atomist:generated] " ++ tag ++ "\n"

/-- One iteration of the `for (const resource of resources)` loop: match the
resource against the (pre-built) spec index and apply the sync action. -/
def syncStep (env : SyncEnv) (specs : List ProjectFileSpec) (action : SyncAction)
    (p : SimProject) (resource : K8sObject) : SimProject :=
  let fileSpec := matchSpec resource specs
  match action with
  | .delete => resourceDeleted p fileSpec
  | .upsert => resourceUpserted env resource p fileSpec

/-- The `syncVerb` chosen alongside the sync action. -/
def syncVerbOf : SyncAction → String
  | .delete => "Delete"
  | .upsert => "Update"

/-- `syncResources` of `lib/sync/application.ts` (`src/unnamed/part_003`):
index the existing specs, upsert or delete each resource's spec file (the
index is built once, before the loop), then, unless the working copy is
clean, commit with the action verb and the generated-commit marker and push.
Commit or push failure is rethrown with a context prefix. -/
def syncResources (env : SyncEnv) (app : AppId) (resources : List K8sObject)
    (action : SyncAction) (p0 : SimProject) : Except String SimProject :=
  let specs := loadSpecs env p0.files
  let p1 := resources.foldl (syncStep env specs action) p0
  if env.isClean then .ok p1
  else
    let syncVerb := syncVerbOf action
    match env.commitResult with
    | .error m =>
      .error ("Failed to commit and push resource changes to sync repo: " ++ m)
    | .ok _ =>
      match env.pushResult with
      | .error m =>
        .error ("Failed to commit and push resource changes to sync repo: " ++ m)
      | .ok _ =>
        .ok { p1 with
              commits := p1.commits ++ [syncCommitMessage syncVerb app env.commitTag]
              pushes := p1.pushes + 1 }

/-! ## Change Extractor (`parseNameStatusDiff` of `lib/sync/diff.ts`)

Modelled from the spec: `lib/sync/diff.ts` itself is not in the source tree;
only its unit tests are (`src/test/sync/diff.test.ts`).  The model follows
§4.1 of the design (parse `git diff --name-status -z` records
`<status>NUL<path>NUL...` into change records, `D` mapping to `delete` and
the other status codes to `apply`, restricted to root-level spec files) and
reproduces the concrete input/output vectors those tests pin down, including
their ordering: all `delete` records before all `apply` records, each group
ascending by path (JS `localeCompare` is modelled as code-point order, which
coincides on the ASCII paths involved). -/

/-- A change record (`PushDiff` in `lib/sync/diff.ts`). -/
inductive ChangeKind
  | apply
  | delete
  deriving DecidableEq, Repr

structure PushDiff where
  sha : String
  change : ChangeKind
  path : String
  deriving DecidableEq, Repr

/-- Split a NUL-delimited name-status buffer into its fields. -/
def nulFields (diff : String) : List String :=
  ((splitOnChar '\x00' (strTrim diff).data).map String.mk).filter (fun s => s ≠ "")

/-- Pair up alternating status/path fields. -/
def chunkPairs : List String → List (String × String)
  | s :: p :: rest => (s, p) :: chunkPairs rest
  | _ => []

/-- Status-code mapping: `D` is a deletion, `A`/`M` (and the other codes)
are applications of the file's (new) content. -/
def statusChange (s : String) : ChangeKind :=
  if s == "D" then .delete else .apply

/-- The unsorted change records of one commit's diff output. -/
def nameStatusRecords (sha diff : String) : List PushDiff :=
  (chunkPairs (nulFields diff)).filterMap fun sp =>
    if isSpecPath sp.2 then some ⟨sha, statusChange sp.1, sp.2⟩ else none

def changeRank : ChangeKind → Nat
  | .delete => 0
  | .apply => 1

/-- Code-point lexicographic order on character lists, executably (this is
what JS `localeCompare` computes on the ASCII paths involved). -/
def charListLeB : List Char → List Char → Bool
  | [], _ => true
  | _ :: _, [] => false
  | a :: as, b :: bs =>
    if a < b then true else if b < a then false else charListLeB as bs

/-- Code-point order on strings, over the character data. -/
def strLeB (a b : String) : Bool :=
  charListLeB a.data b.data

theorem charListLeB_total : ∀ a b : List Char,
    charListLeB a b = true ∨ charListLeB b a = true := by
  intro a
  induction a with
  | nil => intro b; exact Or.inl rfl
  | cons x xs ih =>
    intro b
    cases b with
    | nil => exact Or.inr rfl
    | cons y ys =>
      simp only [charListLeB]
      rcases lt_trichotomy x y with h | h | h
      · left; rw [if_pos h]
      · subst h
        rcases ih ys with hl | hr
        · left; rw [if_neg (lt_irrefl x), if_neg (lt_irrefl x)]; exact hl
        · right; rw [if_neg (lt_irrefl x), if_neg (lt_irrefl x)]; exact hr
      · right; rw [if_pos h]

theorem charListLeB_trans : ∀ a b c : List Char,
    charListLeB a b = true → charListLeB b c = true → charListLeB a c = true := by
  intro a
  induction a with
  | nil => intro b c _ _; rfl
  | cons x xs ih =>
    intro b c hab hbc
    cases b with
    | nil => cases hab
    | cons y ys =>
      cases c with
      | nil =>
        simp [charListLeB] at hbc
      | cons z zs =>
        simp only [charListLeB] at hab hbc ⊢
        by_cases hxy : x < y
        · by_cases hyz : y < z
          · rw [if_pos (hxy.trans hyz)]
          · by_cases hzy : z < y
            · rw [if_neg hyz, if_pos hzy] at hbc
              cases hbc
            · have hyzeq : y = z := le_antisymm (not_lt.mp hzy) (not_lt.mp hyz)
              subst hyzeq
              rw [if_pos hxy]
        · by_cases hyx : y < x
          · rw [if_neg hxy, if_pos hyx] at hab
            cases hab
          · have hxeq : x = y := le_antisymm (not_lt.mp hyx) (not_lt.mp hxy)
            subst hxeq
            rw [if_neg (lt_irrefl x), if_neg (lt_irrefl x)] at hab
            by_cases hxz : x < z
            · rw [if_pos hxz]
            · by_cases hzx : z < x
              · rw [if_neg hxz, if_pos hzx] at hbc
                cases hbc
              · have hxzeq : x = z := le_antisymm (not_lt.mp hzx) (not_lt.mp hxz)
                subst hxzeq
                rw [if_neg (lt_irrefl x), if_neg (lt_irrefl x)] at hbc ⊢
                exact ih ys zs hab hbc

/-- The record order used for the per-commit sort: deletions first, then by
path ascending within each change kind. -/
def diffRecordLE (a b : PushDiff) : Prop :=
  changeRank a.change < changeRank b.change ∨
    (changeRank a.change = changeRank b.change ∧ strLeB a.path b.path = true)

instance : DecidableRel diffRecordLE := fun a b => by
  unfold diffRecordLE; infer_instance

instance : IsTotal PushDiff diffRecordLE where
  total a b := by
    unfold diffRecordLE
    rcases Nat.lt_trichotomy (changeRank a.change) (changeRank b.change) with h | h | h
    · exact Or.inl (Or.inl h)
    · rcases charListLeB_total a.path.data b.path.data with hp | hp
      · exact Or.inl (Or.inr ⟨h, hp⟩)
      · exact Or.inr (Or.inr ⟨h.symm, hp⟩)
    · exact Or.inr (Or.inl h)

instance : IsTrans PushDiff diffRecordLE where
  trans a b c hab hbc := by
    unfold diffRecordLE at *
    rcases hab with h1 | ⟨h1, p1⟩ <;> rcases hbc with h2 | ⟨h2, p2⟩
    · exact Or.inl (h1.trans h2)
    · exact Or.inl (h2 ▸ h1)
    · exact Or.inl (h1 ▸ h2)
    · exact Or.inr ⟨h1.trans h2, charListLeB_trans _ _ _ p1 p2⟩

/-- `parseNameStatusDiff` (modelled from the spec, see the section header):
parse one commit's name-status output and sort the records.  The JS engine's
stable sort is modelled by insertion sort. -/
def parseNameStatusDiff (sha diff : String) : List PushDiff :=
  List.insertionSort diffRecordLE (nameStatusRecords sha diff)

/-! ## Patched API clients (`patchWithHeaders` of `lib/kubernetes/clients.ts`)

An API client object is modelled by its `defaultHeaders` field plus a
representative further field (`basePath`) standing for all the state the
function does not touch.  The underlying generated `patch*` method
(`patcher.apply(api, args)`) is a function of the client state whose promise
either resolves or rejects. -/

structure ApiClient where
  defaultHeaders : List (String × String)
  basePath : String
  deriving DecidableEq, Repr

/-- JS object spread `{...hs, k: v}`: replace the binding of `k` in place if
present, otherwise append it. -/
def spreadSetHeader (hs : List (String × String)) (k v : String) :
    List (String × String) :=
  if hs.any (fun p => p.1 == k) then
    hs.map (fun p => if p.1 == k then (k, v) else p)
  else hs ++ [(k, v)]

def patchContentType : String := "application/strategic-merge-patch+json"

/-- `patchWithHeaders` of `lib/kubernetes/clients.ts`: save `defaultHeaders`,
overwrite them with the strategic-merge-patch content type, run the patch
call, and write the saved headers back.  There is no `try`/`finally`: when
the awaited call rejects, the exception propagates before the restoring
assignment runs, so the mutated client state is returned alongside the
error. -/
def patchWithHeaders {ε ρ : Type} (api : ApiClient)
    (patcher : ApiClient → Except ε ρ) : Except ε ρ × ApiClient :=
  let oldDefaultHeaders := api.defaultHeaders
  let api' := { api with
    defaultHeaders := spreadSetHeader api.defaultHeaders "Content-Type" patchContentType }
  match patcher api' with
  | .ok r => (.ok r, { api' with defaultHeaders := oldDefaultHeaders })
  | .error e => (.error e, api')

/-! ## Secret Cipher (`encrypt`/`decrypt`/`deriveKey` of `lib/sync/` secrets)

The Node `crypto` primitives are external: they are modelled at their
interface boundary as a bundle of functions with their documented
round-trip contracts (AES-256-CBC with PKCS#7 padding under
`createCipheriv`/`createDecipheriv` is invertible; base64 and UTF-8
encoding/decoding invert).  The repository code proper — the deterministic
salt construction, the scrypt key derivation, the derivation of the IV from
the derived key's hex — is translated directly. -/

structure NodeCrypto where
  /-- `crypto.scrypt key salt length` (deterministic KDF). -/
  scrypt : String → String → Nat → List Nat
  /-- `createCipheriv("aes-256-cbc", key, iv)` over a whole message. -/
  cbcEncrypt : List Nat → List Nat → List Nat → List Nat
  cbcDecrypt : List Nat → List Nat → List Nat → List Nat
  /-- `buffer.toString("base64")`. -/
  b64encode : List Nat → String
  /-- `Buffer.from(text, "base64")`. -/
  b64decode : String → List Nat
  /-- `Buffer.from(text, "utf8")` (i.e. `cipher.update(text)` on a string). -/
  utf8encode : String → List Nat
  /-- `buffer.toString("utf8")`. -/
  utf8decode : List Nat → String
  /-- `buffer.toString("hex")`. -/
  hexString : List Nat → String
  cbc_roundtrip : ∀ key iv m, cbcDecrypt key iv (cbcEncrypt key iv m) = m
  b64_roundtrip : ∀ bs, b64decode (b64encode bs) = bs
  utf8_roundtrip : ∀ s, utf8decode (utf8encode s) = s

/-- `key.repeat(n)`. -/
def repeatStr (s : String) : Nat → String
  | 0 => ""
  | n + 1 => s ++ repeatStr s n

/-- `s.substring(0, n)`. -/
def substringTo (s : String) (n : Nat) : String :=
  String.mk (s.data.take n)

/-- `deriveKey` of the secret cipher: scrypt with a deterministic salt built
by repeating the passphrase out to the 16-character salt length.  (For the
empty key the JS original throws before reaching scrypt — `16 / 0` is
`Infinity` — so only nonempty keys are meaningful here.) -/
def deriveKey (c : NodeCrypto) (key : String) (length : Nat) : List Nat :=
  let saltLength := 16
  let salt := substringTo (repeatStr key (saltLength / key.length + 1)) saltLength
  c.scrypt key salt length

/-- `encrypt` of the secret cipher: AES-256-CBC with key `deriveKey(key)` and
IV `deriveKey(hex(derivedKey), 16)`, base64-encoded. -/
def encrypt (c : NodeCrypto) (text key : String) : String :=
  let derivedKey := deriveKey c key 32
  let iv := deriveKey c (c.hexString derivedKey) 16
  c.b64encode (c.cbcEncrypt derivedKey iv (c.utf8encode text))

/-- `decrypt` of the secret cipher: the exact inverse composition, with the
key and IV derived the same way from the passphrase alone. -/
def decrypt (c : NodeCrypto) (text key : String) : String :=
  let derivedKey := deriveKey c key 32
  let iv := deriveKey c (c.hexString derivedKey) 16
  c.utf8decode (c.cbcDecrypt derivedKey iv (c.b64decode text))

/-! ## Commit-Loop Guard (`isSyncRepoCommit` of `lib/sync/goals.ts`)

The inner `pushTest` body is translated directly.  The configured sync repo
is either still the raw `SyncRepoRef` from the configuration or the
`RemoteRepoRef` it is resolved to at startup; `isRemoteRepo` (from
`lib/sync/repo.ts`, a type guard) is the discriminator of that sum. -/

structure RemoteRepoRef where
  providerType : String
  owner : String
  repo : String
  branch : String
  deriving DecidableEq, Repr

/-- The configured `sdm.k8s.options.sync.repo` value at test time. -/
inductive SyncRepoConfig
  | unresolved (raw : String)
  | resolved (r : RemoteRepoRef)
  deriving DecidableEq, Repr

structure PushCommit where
  message : String
  deriving DecidableEq, Repr

/-- The fields of the push the test reads: `p.id` and `p.push.commits`. -/
structure PushInfo where
  providerType : String
  owner : String
  repo : String
  branch : String
  commits : List PushCommit
  deriving DecidableEq, Repr

/-- The `IsSyncRepoCommit` push test body of `isSyncRepoCommit`
(`lib/sync/goals.ts`): throw if the configured repo was never resolved;
otherwise, on an exact provider/owner/repo/branch match, succeed iff some
commit message does not contain the generated-commit tag; on a mismatch,
fail. -/
def isSyncRepoCommitTest (repo : SyncRepoConfig) (tag : String)
    (p : PushInfo) : Except String Bool :=
  match repo with
  | .unresolved raw =>
    .error ("SyncRepoRef did not get converted to proper RemoteRepoRef at startup: " ++ raw)
  | .resolved r =>
    if p.providerType == r.providerType && p.owner == r.owner &&
        p.repo == r.repo && p.branch == r.branch then
      .ok (p.commits.any (fun c => !(strIncludes c.message tag)))
    else
      .ok false

/-! ## Application orchestration (`lib/kubernetes/application.ts`)

`upsertApplication` and `deleteApplication` (`src/unnamed/part_001`).  The
JS error value caught from `loadKubeConfig` carries a `message` property
that is a string on every `Error`; the `catch` block of `deleteApplication`
*invokes* it — `e.message(...)` — which in JavaScript raises
`TypeError: e.message is not a function` for a string-valued property.
The JS call semantics are modelled explicitly. -/

/-- A JS property value: a string or a function. -/
inductive JsVal
  | str (s : String)
  | fn (f : String → String)

/-- A JS `Error`-like object, by its `message` property. -/
structure ErrObj where
  message : JsVal

/-- What a model function can throw: an `Error`-like object, or an engine
`TypeError`. -/
inductive Thrown
  | jsError (e : ErrObj)
  | typeError (msg : String)

/-- JS call semantics: invoking a non-function value raises `TypeError`. -/
def jsInvoke : JsVal → String → Except Thrown String
  | .str _, _ => .error (.typeError "e.message is not a function")
  | .fn f, a => .ok (f a)

/-- JS template interpolation of a property value. -/
def jsValStr : JsVal → String
  | .str s => s
  | .fn _ => "function"

/-- The five constituent resource kinds `deleteApplication` walks, in source
order. -/
inductive AppResKind
  | ingress
  | deployment
  | secrets
  | service
  | rbac
  deriving DecidableEq, Repr

def deleteOrder : List AppResKind :=
  [.ingress, .deployment, .secrets, .service, .rbac]

/-- The per-kind context prefix each `catch` block puts on a deletion
failure. -/
def deleteKindErrMsg (slug : String) : AppResKind → String → String
  | .ingress, m => "Failed to delete ingress " ++ slug ++ ": " ++ m
  | .deployment, m => "Failed to delete deployment " ++ slug ++ ": " ++ m
  | .secrets, m => "Failed to delete secrets of " ++ slug ++ ": " ++ m
  | .service, m => "Failed to delete service " ++ slug ++ ": " ++ m
  | .rbac, m => "Failed to delete RBAC resources for " ++ slug ++ ": " ++ m

/-- One try/catch step of `deleteApplication`'s body: record the attempt,
and either collect the deleted resources or collect the prefixed error. -/
def deleteStep {α : Type} (slug : String) (del : AppResKind → Except String (List α))
    (acc : List AppResKind × List α × List String) (k : AppResKind) :
    List AppResKind × List α × List String :=
  (acc.1 ++ [k],
    match del k with
    | .ok ds => (acc.2.1 ++ ds, acc.2.2)
    | .error m => (acc.2.1, acc.2.2 ++ [deleteKindErrMsg slug k m]))

/-- `deleteApplication` of `lib/kubernetes/application.ts`
(`src/unnamed/part_001`).  Returns the list of kinds that were attempted (in
order) along with the outcome.  `loadKubeConfig` failure runs the `catch`
block, whose first statement calls the caught error's `message` property as
a function; the kind deleters (`deleteIngress` etc., each wrapping its own
resources) are inputs at the interface boundary. -/
def deleteApplication {α : Type} (loadKubeConfig : Except ErrObj Unit)
    (slug reqStr : String) (del : AppResKind → Except String (List α)) :
    List AppResKind × Except Thrown (List α) :=
  match loadKubeConfig with
  | .error e =>
    match jsInvoke e.message
        ("Failed to load Kubernetes config to delete " ++ slug ++ ": "
          ++ jsValStr e.message) with
    | .error t => ([], .error t)
    | .ok _ => ([], .error (.jsError e))
  | .ok _ =>
    let r := deleteOrder.foldl (deleteStep slug del) ([], [], [])
    if r.2.2.isEmpty then (r.1, .ok r.2.1)
    else
      (r.1, .error (.jsError ⟨.str ("Failed to delete application '" ++ reqStr
        ++ "': " ++ joinSemi r.2.2)⟩))

/-- `upsertApplication` of `lib/kubernetes/application.ts`: on
`loadKubeConfig` failure the caught error's `message` is *assigned* the
context-prefixed string and the error is rethrown; the upsert body is an
input at the interface boundary. -/
def upsertApplication {α : Type} (loadKubeConfig : Except ErrObj Unit)
    (app : AppId) (reqStr : String) (body : Except ErrObj (List α)) :
    Except Thrown (List α) :=
  match loadKubeConfig with
  | .error e =>
    .error (.jsError ⟨.str ("Failed to load Kubernetes config to deploy "
      ++ app.ns ++ "/" ++ app.name ++ ": " ++ jsValStr e.message)⟩)
  | .ok _ =>
    match body with
    | .error e =>
      .error (.jsError ⟨.str ("Failed to upsert '" ++ reqStr ++ "': "
        ++ jsValStr e.message)⟩)
    | .ok rs => .ok rs

/-! ## Concrete resources from the repository's own test suite -/

/-- The Secret of the `syncResources` tests (`src/test/sync/diff.test.ts`,
appended application tests): two payload entries under `data`. -/
def toninaSecret : K8sObject :=
  ⟨"v1", "Secret", ⟨some "tonina", some "black-angel"⟩, some "Opaque",
    [("Track01", "w4FyYm9sIERlIExhIFZpZGE="), ("Track02", "Q2FseXBzbyBCbHVlcw==")]⟩

/-! ## Theorems -/

/-- C2.  The repository's tests
(`src/test/sync/diff.test.ts`, `specFileBasename` suite) assert the
priority-prefixed, underscore-separated scheme the spec describes
(`"10_lyle_namespace"`, `"70_black-angel_tonina_deployment"`), but
`specFileBasename` as implemented in `src/unnamed/part_003` produces the
hyphen-joined `"NAMESPACE-NAME-KEBABKIND"` form with no priority code: the
code contradicts its own test suite at these inputs. -/
theorem specFileBasename_has_no_priority_code :
    specFileBasename ⟨"v1", "Namespace", ⟨some "lyle", none⟩, none, []⟩
        = "lyle-namespace" ∧
    specFileBasename ⟨"apps/v1", "Deployment",
        ⟨some "tonina", some "black-angel"⟩, none, []⟩
        = "black-angel-tonina-deployment" ∧
    specFileBasename ⟨"v1", "ServiceAccount", ⟨some "lyle", some "lovett"⟩, none, []⟩
        = "lovett-lyle-service-account" ∧
    "lyle-namespace" ≠ "10_lyle_namespace" ∧
    "black-angel-tonina-deployment" ≠ "70_black-angel_tonina_deployment" := by
  refine ⟨rfl, rfl, rfl, by decide, by decide⟩

/-- C1.  `resourceUpserted` of `src/unnamed/part_003` writes the serialized
resource object itself: for the test suite's Secret (no matching spec file,
empty store) the file it creates holds `jsonDump` of the *unmodified*
resource, whose `data` payload still carries the original clear values —
no Secret Cipher `encrypt` is applied anywhere in `syncResources` /
`resourceUpserted` (the 3-argument `syncResources` has no access to sync
options or a cipher key at all), for any serializer and guid stream. -/
theorem resourceUpserted_writes_secret_payload_verbatim :
    ∀ env : SyncEnv,
      resourceUpserted env toninaSecret ⟨[], [], 0⟩ none =
        ⟨[("black-angel-tonina-secret.json", env.jsonDump toninaSecret)], [], 0⟩ ∧
      toninaSecret.data =
        [("Track01", "w4FyYm9sIERlIExhIFZpZGE="), ("Track02", "Q2FseXBzbyBCbHVlcw==")] := by
  intro env
  exact ⟨rfl, rfl⟩

/-- C4 (counterexample).  When the underlying patch call throws, the client's
`defaultHeaders` are *not* equal to their value from before the call: the
strategic-merge-patch content type is still installed, because the restoring
assignment sits after the `await` with no `try`/`finally`. -/
theorem patchWithHeaders_headers_differ_after_throw :
    (patchWithHeaders ⟨[], "https://k8s.example.com"⟩
        (fun _ => (Except.error 0 : Except Nat Nat))).2.defaultHeaders ≠
      (⟨[], "https://k8s.example.com"⟩ : ApiClient).defaultHeaders := by
  decide

/-- C4 (amended).  `patchWithHeaders` never touches any client field other
than `defaultHeaders`; when the patch call succeeds the whole client state
is restored exactly; when it throws, the client is left with the
strategic-merge-patch content-type header installed over the prior
headers. -/
theorem patchWithHeaders_frame :
    ∀ {ε ρ : Type} (api : ApiClient) (patcher : ApiClient → Except ε ρ),
      (patchWithHeaders api patcher).2.basePath = api.basePath ∧
      ((patchWithHeaders api patcher).1.isOk = true →
        (patchWithHeaders api patcher).2 = api) ∧
      (∀ e, (patchWithHeaders api patcher).1 = .error e →
        (patchWithHeaders api patcher).2 =
          { api with defaultHeaders :=
              spreadSetHeader api.defaultHeaders "Content-Type" patchContentType }) := by
  intro ε ρ api patcher
  simp only [patchWithHeaders]
  cases h : patcher ⟨spreadSetHeader api.defaultHeaders "Content-Type" patchContentType, api.basePath⟩ with
  | ok r => simp [h, Except.isOk]
  | error e => simp [h, Except.isOk, Except.toBool]

/-- C4 (witness): a successful patch on a concrete client restores the exact
prior state. -/
theorem patchWithHeaders_frame_witness :
    (patchWithHeaders ⟨[("Accept", "application/json")], "https://k8s.example.com"⟩
        (fun _ => (Except.ok 200 : Except Nat Nat))).2 =
      ⟨[("Accept", "application/json")], "https://k8s.example.com"⟩ :=
  (patchWithHeaders_frame ⟨[("Accept", "application/json")], "https://k8s.example.com"⟩
    (fun _ => (Except.ok 200 : Except Nat Nat))).2.1 rfl

/-- C10.  When loading the Kubernetes configuration fails with an ordinary
error (string-valued `message`), `deleteApplication`'s catch block invokes
`e.message(...)` as a function, so the call throws the engine `TypeError`
(and attempts no resource kind), whereas `upsertApplication`'s analogous
catch block rethrows the original error with the context-prefixed
message. -/
theorem deleteApplication_config_failure_is_typeError :
    ∀ (α : Type) (m slug reqStr : String) (app : AppId)
      (del : AppResKind → Except String (List α)) (body : Except ErrObj (List α)),
      deleteApplication (.error ⟨.str m⟩) slug reqStr del =
        ([], .error (.typeError "e.message is not a function")) ∧
      upsertApplication (.error ⟨.str m⟩) app reqStr body =
        .error (.jsError ⟨.str ("Failed to load Kubernetes config to deploy "
          ++ app.ns ++ "/" ++ app.name ++ ": " ++ m)⟩) := by
  intro α m slug reqStr app del body
  exact ⟨rfl, rfl⟩

/-- C5.  Secret Cipher round trip and determinism: for any implementation of
the external crypto primitives meeting their documented contracts, and any
nonempty plaintext and key, `decrypt (encrypt text key) key = text`, and two
`encrypt` calls on the same arguments produce the same base64 ciphertext
(the salt and IV are derived deterministically from the passphrase alone;
no randomness enters the computation). -/
theorem encrypt_decrypt_roundtrip (c : NodeCrypto) (text key : String)
    (htext : text ≠ "") (hkey : key ≠ "") :
    decrypt c (encrypt c text key) key = text ∧
      encrypt c text key = encrypt c text key := by
  refine ⟨?_, rfl⟩
  simp only [decrypt, encrypt]
  rw [c.b64_roundtrip, c.cbc_roundtrip, c.utf8_roundtrip]

/-! Witness instance for the crypto interface: a concrete, executable bundle
whose round-trip laws are proved, used only to instantiate
`encrypt_decrypt_roundtrip` at a concrete input. -/

/-- An injective byte-list-to-string encoding with a computable inverse
(unary runs of `a` terminated by `b`), standing in for base64 in the witness
instance. -/
def unaryEncodeCh : List Nat → List Char
  | [] => []
  | b :: rest => List.replicate b 'a' ++ 'b' :: unaryEncodeCh rest

def unaryDecodeAux : List Char → Nat → List Nat
  | [], _ => []
  | c :: rest, acc =>
    if c = 'b' then acc :: unaryDecodeAux rest 0 else unaryDecodeAux rest (acc + 1)

theorem unaryDecodeAux_replicate (b : Nat) (t : List Char) (acc : Nat) :
    unaryDecodeAux (List.replicate b 'a' ++ t) acc = unaryDecodeAux t (acc + b) := by
  induction b generalizing acc with
  | zero => simp [unaryDecodeAux]
  | succ n ih =>
    simp only [List.replicate_succ, List.cons_append, List.append_eq, unaryDecodeAux]
    rw [if_neg (by decide), ih]
    congr 1
    omega

theorem unary_roundtrip (bs : List Nat) :
    unaryDecodeAux (unaryEncodeCh bs) 0 = bs := by
  induction bs with
  | nil => simp [unaryEncodeCh, unaryDecodeAux]
  | cons b rest ih =>
    simp only [unaryEncodeCh]
    rw [unaryDecodeAux_replicate]
    simp [unaryDecodeAux, ih]

/-- A concrete `NodeCrypto` instance for the witness. -/
def demoCrypto : NodeCrypto where
  scrypt := fun key salt len => (List.range len).map (fun i => (key.length + salt.length + i) % 256)
  cbcEncrypt := fun _ _ m => m.reverse
  cbcDecrypt := fun _ _ m => m.reverse
  b64encode := fun bs => String.mk (unaryEncodeCh bs)
  b64decode := fun s => unaryDecodeAux s.data 0
  utf8encode := fun s => s.data.map Char.toNat
  utf8decode := fun l => String.mk (l.map Char.ofNat)
  hexString := fun l => String.mk (unaryEncodeCh l)
  cbc_roundtrip := by intro k iv m; simp
  b64_roundtrip := by intro bs; exact unary_roundtrip bs
  utf8_roundtrip := by
    intro s
    apply String.ext
    simp [List.map_map, Function.comp_def]

/-- C5 (witness): the round trip at a concrete text and key, using the
concrete crypto bundle. -/
theorem encrypt_decrypt_roundtrip_witness :
    decrypt demoCrypto (encrypt demoCrypto "Calypso Blues" "tonina") "tonina"
      = "Calypso Blues" :=
  (encrypt_decrypt_roundtrip demoCrypto "Calypso Blues" "tonina"
    (by decide) (by decide)).1

/-- For a single commit: the test's per-commit predicate holds iff the
message does not contain the tag as a substring. -/
theorem commit_lacks_tag_iff (tag : String) (c : PushCommit) :
    ((!strIncludes c.message tag) = true) ↔
      ¬ ∃ pre post : String, c.message = pre ++ tag ++ post := by
  constructor
  · intro hb hex
    rw [(strIncludes_iff c.message tag).mpr hex] at hb
    simp at hb
  · intro hn
    cases hsi : strIncludes c.message tag
    · simp
    · exact absurd ((strIncludes_iff c.message tag).mp hsi) hn

/-- C6.  The `IsSyncRepoCommit` push test: with an unresolved sync repo it
throws; with a resolved `RemoteRepoRef` it never throws, and it returns
`true` exactly when the push's provider type, owner, repo and branch all
equal the sync repo's and some commit of the push has a message that does
not contain the generated-commit marker tag. -/
theorem isSyncRepoCommit_characterization (tag : String) (p : PushInfo)
    (raw : String) (r : RemoteRepoRef) :
    (∃ msg, isSyncRepoCommitTest (.unresolved raw) tag p = .error msg) ∧
    (∃ b, isSyncRepoCommitTest (.resolved r) tag p = .ok b) ∧
    (isSyncRepoCommitTest (.resolved r) tag p = .ok true ↔
      (p.providerType = r.providerType ∧ p.owner = r.owner ∧ p.repo = r.repo ∧
        p.branch = r.branch ∧
        ∃ c ∈ p.commits, ¬ ∃ pre post : String, c.message = pre ++ tag ++ post)) := by
  refine ⟨⟨_, rfl⟩, ?_, ?_⟩
  · simp only [isSyncRepoCommitTest]
    split
    · exact ⟨_, rfl⟩
    · exact ⟨_, rfl⟩
  · simp only [isSyncRepoCommitTest]
    by_cases h : (p.providerType == r.providerType && p.owner == r.owner &&
        p.repo == r.repo && p.branch == r.branch) = true
    · rw [if_pos h]
      simp only [Bool.and_eq_true, beq_iff_eq] at h
      obtain ⟨⟨⟨h1, h2⟩, h3⟩, h4⟩ := h
      simp only [Except.ok.injEq, List.any_eq_true]
      constructor
      · rintro ⟨c, hc, hb⟩
        exact ⟨h1, h2, h3, h4, c, hc, (commit_lacks_tag_iff tag c).mp hb⟩
      · rintro ⟨_, _, _, _, c, hc, hnc⟩
        exact ⟨c, hc, (commit_lacks_tag_iff tag c).mpr hnc⟩
    · rw [if_neg h]
      constructor
      · intro hk
        exact absurd (by injection hk) Bool.false_ne_true
      · rintro ⟨h1, h2, h3, h4, _⟩
        exact absurd (by simp [h1, h2, h3, h4]) h

/-- The prefixed failure messages `deleteApplication` collects, in kind
order. -/
def deleteErrs {α : Type} (slug : String)
    (del : AppResKind → Except String (List α)) : List String :=
  deleteOrder.filterMap fun k =>
    match del k with
    | .ok _ => none
    | .error m => some (deleteKindErrMsg slug k m)

/-- The fold of `deleteApplication`'s body records every kind as attempted
and collects exactly the prefixed messages of the failing kinds. -/
theorem deleteStep_foldl {α : Type} (slug : String)
    (del : AppResKind → Except String (List α)) :
    ∀ (ks : List AppResKind) (acc : List AppResKind × List α × List String),
      (ks.foldl (deleteStep slug del) acc).1 = acc.1 ++ ks ∧
      (ks.foldl (deleteStep slug del) acc).2.2 = acc.2.2 ++ ks.filterMap (fun k =>
        match del k with
        | .ok _ => none
        | .error m => some (deleteKindErrMsg slug k m)) := by
  intro ks
  induction ks with
  | nil => intro acc; simp
  | cons k rest ih =>
    intro acc
    simp only [List.foldl_cons, List.filterMap_cons]
    cases hk : del k with
    | ok ds =>
      have hstep : deleteStep slug del acc k = (acc.1 ++ [k], acc.2.1 ++ ds, acc.2.2) := by
        simp [deleteStep, hk]
      have hih := ih (acc.1 ++ [k], acc.2.1 ++ ds, acc.2.2)
      rw [hstep]
      constructor
      · rw [hih.1]; simp
      · rw [hih.2]; try simp [hk]
    | error m =>
      have hstep : deleteStep slug del acc k =
          (acc.1 ++ [k], acc.2.1, acc.2.2 ++ [deleteKindErrMsg slug k m]) := by
        simp [deleteStep, hk]
      have hih := ih (acc.1 ++ [k], acc.2.1, acc.2.2 ++ [deleteKindErrMsg slug k m])
      rw [hstep]
      constructor
      · rw [hih.1]; simp
      · rw [hih.2]; try simp [hk]

/-- C8.  `deleteApplication` (with a loadable configuration) attempts the
constituent kinds in the fixed order ingress, deployment, secrets, service,
RBAC — an individual failure never stops the walk — and throws an aggregate
error iff at least one kind failed, whose message contains each failing
kind's own context-prefixed message. -/
theorem deleteApplication_collects_all_failures {α : Type} (slug reqStr : String)
    (del : AppResKind → Except String (List α)) :
    (deleteApplication (.ok ()) slug reqStr del).1 = deleteOrder ∧
    ((∃ e, (deleteApplication (.ok ()) slug reqStr del).2 = .error e) ↔
      ∃ k ∈ deleteOrder, ∃ m, del k = .error m) ∧
    (∀ k m, del k = .error m →
      ∃ pre post : String,
        (deleteApplication (.ok ()) slug reqStr del).2 =
          .error (.jsError ⟨.str ("Failed to delete application '" ++ reqStr
            ++ "': " ++ joinSemi (deleteErrs slug del))⟩) ∧
        joinSemi (deleteErrs slug del) = pre ++ deleteKindErrMsg slug k m ++ post) := by
  have hfold := deleteStep_foldl slug del deleteOrder ([], [], [])
  have htrace : (deleteOrder.foldl (deleteStep slug del) ([], [], [])).1 = deleteOrder := by
    rw [hfold.1]; rfl
  have herrs : (deleteOrder.foldl (deleteStep slug del) ([], [], [])).2.2 =
      deleteErrs slug del := by
    rw [hfold.2]; rfl
  have hmem : ∀ k m, del k = .error m → deleteKindErrMsg slug k m ∈ deleteErrs slug del := by
    intro k m hk
    rw [deleteErrs, List.mem_filterMap]
    refine ⟨k, ?_, by rw [hk]⟩
    cases k <;> simp [deleteOrder]
  by_cases he : (deleteErrs slug del).isEmpty
  · have hres : deleteApplication (.ok ()) slug reqStr del =
        ((deleteOrder.foldl (deleteStep slug del) ([], [], [])).1,
          .ok (deleteOrder.foldl (deleteStep slug del) ([], [], [])).2.1) := by
      simp only [deleteApplication]
      rw [herrs, if_pos he]
    refine ⟨by rw [hres]; exact htrace, ?_, ?_⟩
    · rw [hres]
      simp only [List.isEmpty_iff] at he
      constructor
      · rintro ⟨e, hc⟩; cases hc
      · rintro ⟨k, hk, m, hm⟩
        exact absurd (he ▸ hmem k m hm) (List.not_mem_nil _)
    · intro k m hm
      exact absurd ((List.isEmpty_iff.mp he) ▸ hmem k m hm) (List.not_mem_nil _)
  · have hres : deleteApplication (.ok ()) slug reqStr del =
        ((deleteOrder.foldl (deleteStep slug del) ([], [], [])).1,
          .error (.jsError ⟨.str ("Failed to delete application '" ++ reqStr
            ++ "': " ++ joinSemi (deleteErrs slug del))⟩)) := by
      simp only [deleteApplication]
      rw [herrs, if_neg he]
    refine ⟨by rw [hres]; exact htrace, ?_, ?_⟩
    · constructor
      · intro _
        have hne : deleteErrs slug del ≠ [] := by
          intro hnil; rw [hnil] at he; exact he rfl
        obtain ⟨x, hx⟩ := List.exists_mem_of_ne_nil _ hne
        rw [deleteErrs, List.mem_filterMap] at hx
        obtain ⟨k, hk, hfk⟩ := hx
        cases hdk : del k with
        | ok ds => rw [hdk] at hfk; cases hfk
        | error m => exact ⟨k, hk, m, hdk⟩
      · intro _
        exact ⟨_, by rw [hres]⟩
    · intro k m hm
      obtain ⟨pre, post, hj⟩ := joinSemi_contains (hmem k m hm)
      exact ⟨pre, post, by rw [hres], hj⟩

/-- Concrete kind deleters for the C8 witness: the secrets deletion fails,
the others succeed. -/
def demoDel : AppResKind → Except String (List Nat)
  | .secrets => .error "secret delete failed"
  | _ => .ok []

/-- C8 (witness): with the secrets deletion failing concretely, the
aggregate error carries the prefixed secrets failure message. -/
theorem deleteApplication_collects_all_failures_witness :
    ∃ pre post : String,
      (deleteApplication (.ok ()) "ns/app" "req" demoDel).2 =
        .error (.jsError ⟨.str ("Failed to delete application '" ++ "req"
          ++ "': " ++ joinSemi (deleteErrs "ns/app" demoDel))⟩) ∧
      joinSemi (deleteErrs "ns/app" demoDel) =
        pre ++ deleteKindErrMsg "ns/app" .secrets "secret delete failed" ++ post :=
  (deleteApplication_collects_all_failures "ns/app" "req" demoDel).2.2
    .secrets "secret delete failed" rfl

/-- The resource-identity equality `matchSpec` tests, as a proposition: all
four fields equal, the namespace compared as an `Option` (absent matches
absent; absent does not match the empty string or act as a wildcard). -/
def specIdsMatch (spec : K8sObject) (fs : ProjectFileSpec) : Prop :=
  fs.spec.apiVersion = some spec.apiVersion ∧ fs.spec.kind = some spec.kind ∧
    fs.spec.metadata.name = spec.metadata.name ∧
    fs.spec.metadata.ns = spec.metadata.ns

instance specIdsMatch.dec : ∀ spec fs, Decidable (specIdsMatch spec fs) :=
  fun spec fs => by unfold specIdsMatch; infer_instance

/-- The Boolean test inside `matchSpec` decides `specIdsMatch`. -/
theorem matchSpec_bool_iff (spec : K8sObject) (fs : ProjectFileSpec) :
    ((fs.spec.apiVersion == some spec.apiVersion &&
      fs.spec.kind == some spec.kind &&
      fs.spec.metadata.name == spec.metadata.name &&
      fs.spec.metadata.ns == spec.metadata.ns) = true) ↔
      specIdsMatch spec fs := by
  simp [specIdsMatch, and_assoc]

/-- `List.find?` returns the first satisfying element. -/
theorem find?_first_characterization {α : Type} (p : α → Bool) :
    ∀ (l : List α) (e : α), l.find? p = some e →
      p e = true ∧ ∃ i : Nat, ∃ h : i < l.length, l.get ⟨i, h⟩ = e ∧
        ∀ j (hj : j < i), p (l.get ⟨j, Nat.lt_trans hj h⟩) = false := by
  intro l
  induction l with
  | nil => intro e h; cases h
  | cons x xs ih =>
    intro e h
    by_cases hx : p x = true
    · rw [List.find?_cons_of_pos _ hx] at h
      obtain rfl : x = e := by injection h
      refine ⟨hx, 0, Nat.succ_pos _, rfl, ?_⟩
      intro j hj; omega
    · rw [List.find?_cons_of_neg _ (by simpa using hx)] at h
      obtain ⟨hp, i, hi, hget, hfirst⟩ := ih e h
      refine ⟨hp, i + 1, Nat.succ_lt_succ hi, hget, ?_⟩
      intro j hj
      cases j with
      | zero => simpa using hx
      | succ j0 => exact hfirst j0 (Nat.lt_of_succ_lt_succ hj)

/-- C9.  `matchSpec` returns `none` exactly when no entry's four identity
fields all equal the query's, and when it returns an entry that entry is an
identity match sitting at some position before which no entry matches
(a linear first-match scan).  The namespace equality is `Option`-valued:
an absent namespace equals an absent namespace only. -/
theorem matchSpec_first_identity_match (spec : K8sObject)
    (fileSpecs : List ProjectFileSpec) :
    (matchSpec spec fileSpecs = none ↔ ∀ fs ∈ fileSpecs, ¬ specIdsMatch spec fs) ∧
    (∀ e, matchSpec spec fileSpecs = some e →
      specIdsMatch spec e ∧
      ∃ i : Nat, ∃ h : i < fileSpecs.length, fileSpecs.get ⟨i, h⟩ = e ∧
        ∀ j (hj : j < i), ¬ specIdsMatch spec (fileSpecs.get ⟨j, Nat.lt_trans hj h⟩)) := by
  constructor
  · rw [matchSpec, List.find?_eq_none]
    constructor
    · intro hall fs hmem hid
      exact hall fs hmem ((matchSpec_bool_iff spec fs).mpr hid)
    · intro hall fs hmem hb
      exact hall fs hmem ((matchSpec_bool_iff spec fs).mp hb)
  · intro e he
    obtain ⟨hp, i, hi, hget, hfirst⟩ := find?_first_characterization _ fileSpecs e he
    refine ⟨(matchSpec_bool_iff spec e).mp hp, i, hi, hget, ?_⟩
    intro j hj hid
    have := hfirst j hj
    rw [(matchSpec_bool_iff spec _).mpr hid] at this
    cases this

/-- The near-miss store of the repository's `matchSpec` tests, adapted to the
cluster-scoped case: only the second entry matches the query on all four
identity fields (the first differs in namespace — present versus absent —
and the third in kind). -/
def clusterRoleStore : List ProjectFileSpec :=
  [⟨"cr-ns.json", ⟨some "rbac.authorization.k8s.io/v1", some "ClusterRole",
      ⟨some "lyle", some "lovett"⟩⟩⟩,
    ⟨"cr.json", ⟨some "rbac.authorization.k8s.io/v1", some "ClusterRole",
      ⟨some "lyle", none⟩⟩⟩,
    ⟨"crb.json", ⟨some "rbac.authorization.k8s.io/v1", some "ClusterRoleBinding",
      ⟨some "lyle", none⟩⟩⟩]

/-- C9 (witness): on the concrete store, the scan returns the unique
identity match — the entry whose absent namespace equals the query's absent
namespace — and every earlier entry is not an identity match. -/
theorem matchSpec_first_identity_match_witness :
    specIdsMatch ⟨"rbac.authorization.k8s.io/v1", "ClusterRole", ⟨some "lyle", none⟩, none, []⟩
        ⟨"cr.json", ⟨some "rbac.authorization.k8s.io/v1", some "ClusterRole",
          ⟨some "lyle", none⟩⟩⟩ ∧
      ∃ i : Nat, ∃ h : i < clusterRoleStore.length,
        clusterRoleStore.get ⟨i, h⟩ =
          ⟨"cr.json", ⟨some "rbac.authorization.k8s.io/v1", some "ClusterRole",
            ⟨some "lyle", none⟩⟩⟩ ∧
        ∀ j (hj : j < i), ¬ specIdsMatch
          ⟨"rbac.authorization.k8s.io/v1", "ClusterRole", ⟨some "lyle", none⟩, none, []⟩
          (clusterRoleStore.get ⟨j, Nat.lt_trans hj h⟩) :=
  (matchSpec_first_identity_match
    ⟨"rbac.authorization.k8s.io/v1", "ClusterRole", ⟨some "lyle", none⟩, none, []⟩
    clusterRoleStore).2
    ⟨"cr.json", ⟨some "rbac.authorization.k8s.io/v1", some "ClusterRole",
      ⟨some "lyle", none⟩⟩⟩ (by decide)

/-- The "should sort the paths" input of `src/test/sync/diff.test.ts`
(`parseNameStatusDiff` suite), verbatim: NUL-delimited status/path fields,
including a path with an embedded space, a path without a spec extension
and a path in a subdirectory. -/
def sortTestDiff : String :=
  "D\x00a.yaml\x00A\x00s t.json\x00D\x00b.yml\x00A\x00d.json\x00M\x00e.json\x00A\x00aa.json\x00A\x00i/j/k/l.json\x00M\x00x.yaml\x00A\x00f\x00"

def sortTestSha : String := "87c6ba8a3e2e3961d318fa8c50885b1ca0c4e1dc"

/-- C3 (counterexample).  On the repository's own sort-test diff the change
records come out exactly as the in-repo test expects — and that order is
*not* ascending by file path: the two delete records (`a.yaml`, `b.yml`)
precede every apply record, so `b.yml` sits before `aa.json`. -/
theorem parseNameStatusDiff_not_sorted_by_path :
    (parseNameStatusDiff sortTestSha sortTestDiff).map PushDiff.path =
      ["a.yaml", "b.yml", "aa.json", "d.json", "e.json", "s t.json", "x.yaml"] ∧
    ¬ List.Sorted (fun a b : String => strLeB a b = true)
        ((parseNameStatusDiff sortTestSha sortTestDiff).map PushDiff.path) := by
  constructor
  · rfl
  · intro hs
    rw [show (parseNameStatusDiff sortTestSha sortTestDiff).map PushDiff.path =
      ["a.yaml", "b.yml", "aa.json", "d.json", "e.json", "s t.json", "x.yaml"] from rfl] at hs
    have h12 : strLeB "b.yml" "aa.json" = true :=
      List.rel_of_sorted_cons (List.sorted_cons.mp hs).2 "aa.json" (by decide)
    cases h12

/-- In the record order, anything ordered at or after an apply record is an
apply record (so all deletes come first in a sorted list). -/
theorem diffRecordLE_apply_mono (a b : PushDiff) (hle : diffRecordLE a b)
    (ha : a.change = .apply) : b.change = .apply := by
  rcases hle with h | ⟨h, _⟩
  · rw [ha] at h
    cases hb : b.change <;> rw [hb] at h <;> simp [changeRank] at h
  · rw [ha] at h
    cases hb : b.change
    · rfl
    · rw [hb] at h
      simp [changeRank] at h

/-- C3 (amended).  For every commit sha and diff text, the produced record
list is a permutation of the parsed records (status `D` mapping to `delete`,
`A`/`M` to `apply`, restricted to root-level spec paths) arranged so that
every delete record precedes every apply record and each group ascends by
path: it is sorted under `diffRecordLE` (delete-before-apply, then path). -/
theorem parseNameStatusDiff_sorted_delete_first (sha diff : String) :
    List.Sorted diffRecordLE (parseNameStatusDiff sha diff) ∧
    (parseNameStatusDiff sha diff).Perm (nameStatusRecords sha diff) ∧
    statusChange "D" = .delete ∧ statusChange "A" = .apply ∧
    statusChange "M" = .apply := by
  refine ⟨?_, ?_, rfl, rfl, rfl⟩
  · exact List.sorted_insertionSort diffRecordLE (nameStatusRecords sha diff)
  · exact List.perm_insertionSort diffRecordLE (nameStatusRecords sha diff)

/-- The per-resource file operations never commit or push: one loop step
leaves the commit list and push counter unchanged. -/
theorem syncStep_preserves_commits (env : SyncEnv) (specs : List ProjectFileSpec)
    (action : SyncAction) (p : SimProject) (resource : K8sObject) :
    (syncStep env specs action p resource).commits = p.commits ∧
    (syncStep env specs action p resource).pushes = p.pushes := by
  unfold syncStep
  cases action with
  | delete =>
    cases matchSpec resource specs <;> simp [resourceDeleted]
  | upsert =>
    cases matchSpec resource specs with
    | none =>
      simp only [resourceUpserted]
      cases firstFreePath (fun path => p.files.any (fun f => f.1 == path))
        (specFileBasename resource) ".json" env.guids <;> simp
    | some f => simp [resourceUpserted]

/-- The whole resource loop leaves the commit list and push counter
unchanged. -/
theorem syncFold_preserves_commits (env : SyncEnv) (specs : List ProjectFileSpec)
    (action : SyncAction) :
    ∀ (resources : List K8sObject) (p : SimProject),
      (resources.foldl (syncStep env specs action) p).commits = p.commits ∧
      (resources.foldl (syncStep env specs action) p).pushes = p.pushes := by
  intro resources
  induction resources with
  | nil => intro p; exact ⟨rfl, rfl⟩
  | cons r rest ih =>
    intro p
    have hstep := syncStep_preserves_commits env specs action p r
    have hrest := ih (syncStep env specs action p r)
    simp only [List.foldl_cons]
    exact ⟨hrest.1.trans hstep.1, hrest.2.trans hstep.2⟩

/-- C7.  After processing a reverse-sync batch, `syncResources` returns
without committing or pushing when the working copy reports itself clean;
otherwise it commits exactly once — with a message that starts with
"Update" for an upsert batch or "Delete" for a delete batch and contains
the generated-commit marker tag — and pushes exactly once, and a commit or
push failure is propagated to the caller as an error with the context
prefix. -/
theorem syncResources_commit_push (env : SyncEnv) (app : AppId)
    (resources : List K8sObject) (action : SyncAction) (p0 : SimProject) :
    (env.isClean = true → ∃ p1, syncResources env app resources action p0 = .ok p1 ∧
      p1.commits = p0.commits ∧ p1.pushes = p0.pushes) ∧
    (env.isClean = false → ∀ m, env.commitResult = .error m →
      syncResources env app resources action p0 =
        .error ("Failed to commit and push resource changes to sync repo: " ++ m)) ∧
    (env.isClean = false → env.commitResult = .ok () → ∀ m, env.pushResult = .error m →
      syncResources env app resources action p0 =
        .error ("Failed to commit and push resource changes to sync repo: " ++ m)) ∧
    (env.isClean = false → env.commitResult = .ok () → env.pushResult = .ok () →
      ∃ p1, syncResources env app resources action p0 = .ok p1 ∧
        p1.commits = p0.commits ++ [syncCommitMessage (syncVerbOf action) app env.commitTag] ∧
        p1.pushes = p0.pushes + 1 ∧
        ∃ mid post : String,
          syncCommitMessage (syncVerbOf action) app env.commitTag =
            syncVerbOf action ++ mid ++ env.commitTag ++ post) ∧
    syncVerbOf .upsert = "Update" ∧ syncVerbOf .delete = "Delete" := by
  have hp1 := syncFold_preserves_commits env (loadSpecs env p0.files) action resources p0
  refine ⟨?_, ?_, ?_, ?_, rfl, rfl⟩
  · intro hc
    exact ⟨_, by simp [syncResources, hc], hp1.1, hp1.2⟩
  · intro hc m hm
    simp [syncResources, hc, hm]
  · intro hc hcr m hm
    simp [syncResources, hc, hcr, hm]
  · intro hc hcr hpr
    refine ⟨SimProject.mk
      (resources.foldl (syncStep env (loadSpecs env p0.files) action) p0).files
      ((resources.foldl (syncStep env (loadSpecs env p0.files) action) p0).commits
        ++ [syncCommitMessage (syncVerbOf action) app env.commitTag])
      ((resources.foldl (syncStep env (loadSpecs env p0.files) action) p0).pushes + 1),
      ?_, ?_, ?_, ?_⟩
    · simp [syncResources, hc, hcr, hpr]
    · simp only [hp1.1]
    · simp only [hp1.2]
    · refine ⟨" specs for " ++ appName app ++ "\n\n[atomist:generated] ", "\n", ?_⟩
      simp [syncCommitMessage, String.append_assoc]

/-- A concrete environment for the C7 witness: dirty working copy, commit
and push both succeed. -/
def demoSyncEnv : SyncEnv where
  jsonDump := fun _ => "{}"
  yamlDump := fun _ => "{}"
  parse := fun _ => none
  guids := []
  isClean := false
  commitResult := .ok ()
  pushResult := .ok ()
  commitTag := "[atomist:sync-commit=@atomist/sdm-pack-k8s]"

/-- C7 (witness): on a dirty working copy with commit and push succeeding,
the run commits exactly the one generated message and pushes once. -/
theorem syncResources_commit_push_witness :
    ∃ p1, syncResources demoSyncEnv ⟨"black-angel", "tonina"⟩ [toninaSecret]
        .upsert ⟨[], [], 0⟩ = .ok p1 ∧
      p1.commits = [] ++ [syncCommitMessage (syncVerbOf .upsert)
        ⟨"black-angel", "tonina"⟩ demoSyncEnv.commitTag] ∧
      p1.pushes = 0 + 1 ∧
      ∃ mid post : String,
        syncCommitMessage (syncVerbOf .upsert) ⟨"black-angel", "tonina"⟩
            demoSyncEnv.commitTag =
          syncVerbOf .upsert ++ mid ++ demoSyncEnv.commitTag ++ post :=
  (syncResources_commit_push demoSyncEnv ⟨"black-angel", "tonina"⟩ [toninaSecret]
    .upsert ⟨[], [], 0⟩).2.2.2.1 rfl rfl rfl

end SdmPackK8
